import Mathlib

/-!
Verification development for the airplay2-rs capture-and-verify pair:

* `FileAudioSink` (src/airplay2-receiver/ap2/connections/audio_file_sink.py):
  a file-backed PCM sink that appends incoming byte buffers to a raw file
  and, on close, synthesizes a WAV container next to it.
* `analyze_stereo` (src/analyze_stereo.py): an offline verifier that decodes
  the raw capture as big-endian 16-bit stereo PCM, windows it, and checks the
  FFT magnitude peak of each channel against an expected tone.

The Python code is embedded shallowly: files become explicit contents, the
process world becomes a map from names to contents, fallible steps become
`Except` values, and the floating-point FFT is idealized over the real and
complex numbers.  Caught Python exceptions are modelled by the branches that
catch them; uncaught ones surface as `Except.error`.
-/

/-! ## Little-endian byte packing (Python `struct.pack`) -/

/-- The little-endian byte expansion of `v` on `w` bytes, least significant
byte first, as produced by `struct.pack` for formats `<I` (w = 4) and
`<H` (w = 2) on an in-range value. -/
def natLEBytes : ℕ → ℕ → List ℕ
  | 0, _ => []
  | w + 1, v => v % 256 :: natLEBytes w (v / 256)

/-- Reads back a little-endian byte list as a natural number. -/
def readLE : List ℕ → ℕ
  | [] => 0
  | b :: rest => b + 256 * readLE rest

def structErrMsg : String := "struct.error: argument out of range"

/-- Python `struct.pack` for an unsigned little-endian field of `w` bytes:
out-of-range values raise `struct.error`. -/
def packLE (w v : ℕ) : Except String (List ℕ) :=
  if v < 256 ^ w then Except.ok (natLEBytes w v) else Except.error structErrMsg

/-! ## Python `str.replace` (used for the sibling `.wav` name) -/

/-- Python `str.replace` over character lists: scans left to right, replacing
every (leftmost, non-overlapping) occurrence of `pat` by `rep`.  The fuel
argument only bounds the recursion; with fuel at least the length of the
scanned list (as `pyReplace` supplies) it is never exhausted, since a
replacement consumes at least one character. -/
def pyReplaceAux (pat rep : List Char) : ℕ → List Char → List Char
  | _, [] => []
  | 0, l => l
  | fuel + 1, c :: rest =>
    if pat ≠ [] ∧ pat.isPrefixOf (c :: rest) then
      rep ++ pyReplaceAux pat rep fuel ((c :: rest).drop pat.length)
    else
      c :: pyReplaceAux pat rep fuel rest

/-- Python `str.replace` over character lists. -/
def pyReplace (pat rep s : List Char) : List Char :=
  pyReplaceAux pat rep s.length s

/-- Whether `pat` occurs as a contiguous substring of `l`. -/
def containsSub (l pat : List Char) : Bool :=
  pat.isPrefixOf l ||
    match l with
    | [] => false
    | _ :: t => containsSub t pat

/-- Python `str.replace` on strings. -/
def pyReplaceStr (s pat rep : String) : String :=
  String.mk (pyReplace pat.toList rep.toList s.toList)

/-! ## The storage world and the file audio sink -/

/-- The visible storage state: named file contents, plus a counter of how many
times container finalization (`_write_wav`) has been entered. -/
structure World where
  files : String → Option (List ℕ)
  wavAttempts : ℕ

/-- Replaces the contents recorded under one name. -/
def setFile (f : String → Option (List ℕ)) (k : String) (v : Option (List ℕ)) :
    String → Option (List ℕ) :=
  fun n => if n = k then v else f n

/-- The state of one `FileAudioSink` (audio_file_sink.py).  The Python file
handle is abstracted to the flag `fileOpen` (`self.file is not None`). -/
structure FileAudioSink where
  filename : String
  channels : ℕ
  rate : ℕ
  sample_width : ℕ
  fileOpen : Bool
  bytes_written : ℕ

def rawExt : String := ".raw"

def wavExt : String := ".wav"

def fnfMsg : String := "FileNotFoundError"

def zeroDivMsg : String := "ZeroDivisionError"

/-- Model of `FileAudioSink.open`: opens (and truncates) the destination for writing. -/
def openSink (s : FileAudioSink) (w : World) : FileAudioSink × World :=
  ({ s with fileOpen := true },
   { w with files := setFile w.files s.filename (some []) })

/-- Model of `FileAudioSink.write`: if the handle is open, appends the buffer and bumps
the cumulative counter; in every case returns `len(data)`. -/
def write (s : FileAudioSink) (w : World) (data : List ℕ) :
    FileAudioSink × World × ℕ :=
  if s.fileOpen then
    ({ s with bytes_written := s.bytes_written + data.length },
     { w with files := setFile w.files s.filename (some ((w.files s.filename).getD [] ++ data)) },
     data.length)
  else
    (s, w, data.length)

/-- The number of whole-frame bytes the header will declare:
`num_samples * channels * sample_width` with
`num_samples = len(raw) // (sample_width * channels)`. -/
def dataSizeOf (ch sw L : ℕ) : ℕ := L / (sw * ch) * ch * sw

def riffTag : List ℕ := [82, 73, 70, 70]

def waveTag : List ℕ := [87, 65, 86, 69]

def fmtTag : List ℕ := [102, 109, 116, 32]

def dataTag : List ℕ := [100, 97, 116, 97]

/-- The sequence of buffers `_write_wav` writes to the container file, in
order, each either literal bytes or a `struct.pack` result. -/
def wavWrites (ch rate sw dsize : ℕ) (raw : List ℕ) :
    List (Except String (List ℕ)) :=
  [Except.ok riffTag, packLE 4 (36 + dsize), Except.ok waveTag,
   Except.ok fmtTag, packLE 4 16, packLE 2 1, packLE 2 ch, packLE 4 rate,
   packLE 4 (rate * ch * sw), packLE 2 (ch * sw), packLE 2 (sw * 8),
   Except.ok dataTag, packLE 4 dsize, Except.ok raw]

/-- Performs a sequence of writes, stopping at the first failure: returns the
bytes actually written and the error, if any, that interrupted them. -/
def runWrites : List (Except String (List ℕ)) → List ℕ × Option String
  | [] => ([], none)
  | Except.error e :: _ => ([], some e)
  | Except.ok bs :: rest => (bs ++ (runWrites rest).1, (runWrites rest).2)

/-- The full byte stream `_write_wav` produces for the container (with the
error, if any, that cut it short). -/
def wavFileBytes (ch rate sw : ℕ) (raw : List ℕ) : List ℕ × Option String :=
  runWrites (wavWrites ch rate sw (dataSizeOf ch sw raw.length) raw)

/-- The successful container image: 44-byte header followed by the raw bytes. -/
def wavHeaderBytes (ch rate sw dsize : ℕ) : List ℕ :=
  riffTag ++ natLEBytes 4 (36 + dsize) ++ waveTag ++ fmtTag ++
    natLEBytes 4 16 ++ natLEBytes 2 1 ++ natLEBytes 2 ch ++
    natLEBytes 4 rate ++ natLEBytes 4 (rate * ch * sw) ++
    natLEBytes 2 (ch * sw) ++ natLEBytes 2 (sw * 8) ++ dataTag ++
    natLEBytes 4 dsize

/-- Model of `FileAudioSink._write_wav` wrapped in its `try/except`: re-reads the raw
capture and writes the container to the sibling name.  The returned option is
the caught exception message, if any; it is only printed, never re-raised.
A missing raw file fails before the container is opened; a zero frame size
fails after the container has been opened (and truncated); a `struct.pack`
failure leaves the bytes written so far. -/
def writeWav (s : FileAudioSink) (w : World) : World × Option String :=
  let w1 : World := { w with wavAttempts := w.wavAttempts + 1 }
  let wavName := pyReplaceStr s.filename rawExt wavExt
  match w1.files s.filename with
  | none => (w1, some fnfMsg)
  | some raw =>
    if s.sample_width * s.channels = 0 then
      ({ w1 with files := setFile w1.files wavName (some []) }, some zeroDivMsg)
    else
      ({ w1 with files := setFile w1.files wavName (some (wavFileBytes s.channels s.rate s.sample_width raw).1) },
       (wavFileBytes s.channels s.rate s.sample_width raw).2)

/-- Model of `FileAudioSink.close`: when the handle is open, releases it and runs
container finalization once; when already closed, does nothing. -/
def close (s : FileAudioSink) (w : World) : FileAudioSink × World :=
  if s.fileOpen then
    ({ s with fileOpen := false }, (writeWav s w).1)
  else
    (s, w)

/-- Iterated `close`. -/
def closeN : ℕ → FileAudioSink → World → FileAudioSink × World
  | 0, s, w => (s, w)
  | k + 1, s, w => closeN k (close s w).1 (close s w).2

/-- A sequence of `write` calls, one per buffer. -/
def writeMany (s : FileAudioSink) (w : World) : List (List ℕ) → FileAudioSink × World
  | [] => (s, w)
  | d :: rest => writeMany (write s w d).1 (write s w d).2.1 rest

/-- One full capture session: open, push every buffer, close. -/
def runSession (s : FileAudioSink) (w : World) (datas : List (List ℕ)) :
    FileAudioSink × World :=
  close (writeMany (openSink s w).1 (openSink s w).2 datas).1
    (writeMany (openSink s w).1 (openSink s w).2 datas).2

/-! ## The spectral verifier (analyze_stereo.py) -/

/-- Interpretation of a 16-bit word as a signed integer (numpy `int16`). -/
def toSigned16 (v : ℕ) : ℤ := if v < 32768 then (v : ℤ) else (v : ℤ) - 65536

/-- Model of `np.frombuffer(data, dtype=">i2")`: consecutive byte pairs decoded as
big-endian signed 16-bit samples. -/
def decodeBE16 : List ℕ → List ℤ
  | hi :: lo :: rest => toSigned16 (hi * 256 + lo) :: decodeBE16 rest
  | _ => []

/-- Column 0 of `audio.reshape(-1, 2)`: elements at even positions. -/
def evens : List ℤ → List ℤ
  | [] => []
  | [x] => [x]
  | x :: _ :: rest => x :: evens rest

/-- Column 1 of `audio.reshape(-1, 2)`: elements at odd positions. -/
def odds : List ℤ → List ℤ
  | [] => []
  | [_] => []
  | _ :: y :: rest => y :: odds rest

/-- The window start `start = len(left) // 4`. -/
def windowStart (n : ℕ) : ℕ := n / 4

/-- The window end as the code computes it: `end = start + 44100` (a literal
constant, annotated "1 second window"), clamped to the available length. -/
def windowEndCode (n : ℕ) : ℕ := min (n / 4 + 44100) n

/-- Modelled from the spec: the window end as the specification states it,
`end = min(start + expectedSampleRate, totalFrames)`, i.e. one second of
samples at the expected sample rate rather than a hard-coded count. -/
def specWindowEnd (sampleRate n : ℕ) : ℕ := min (n / 4 + sampleRate) n

/-- The slice `l[s:e]` for `s ≤ e ≤ l.length`. -/
def sliceList (l : List ℤ) (s e : ℕ) : List ℤ := (l.drop s).take (e - s)

/-- The discrete Fourier transform bin `k` of a real-valued chunk, as the
idealization of `np.fft.fft`. -/
noncomputable def dftC (x : List ℝ) (k : ℕ) : ℂ :=
  ∑ j ∈ Finset.range x.length,
    ((x.getD j 0 : ℝ) : ℂ) * Complex.exp (-(2 * Real.pi * Complex.I * j * k) / x.length)

/-- The magnitude `np.abs(fft)[k]` at bin `k`. -/
noncomputable def magAt (x : List ℝ) (k : ℕ) : ℝ := Complex.abs (dftC x k)

/-- The full magnitude array over all bins. -/
noncomputable def mags (x : List ℝ) : List ℝ := (List.range x.length).map (magAt x)

open Classical in
/-- Model of `np.argmax`: index of the first occurrence of the maximum (0 on the empty
array, on which numpy instead raises; the pipeline guards that case). -/
noncomputable def np_argmax : List ℝ → ℕ
  | [] => 0
  | x :: xs => if ∀ y ∈ xs, y ≤ x then 0 else np_argmax xs + 1

/-- The selected bin `peak_idx = np.argmax(magnitude[: len(chunk) // 2])`. -/
noncomputable def peakIdx (chunk : List ℝ) : ℕ :=
  np_argmax ((mags chunk).take (chunk.length / 2))

/-- Model of `np.fft.fftfreq(n, d)[i]`: bin `i` maps to `i/(d*n)` on the non-negative
half and to `(i-n)/(d*n)` on the negative half. -/
noncomputable def fftfreq (n : ℕ) (d : ℝ) (i : ℕ) : ℝ :=
  if i < (n + 1) / 2 then (i : ℝ) / (d * n) else ((i : ℝ) - n) / (d * n)

/-- Model of `get_peak_freq` of analyze_stereo.py: the fftfreq value at the argmax of
the magnitudes over the first `len(chunk) // 2` bins. -/
noncomputable def get_peak_freq (chunk : List ℝ) (rate : ℝ) : ℝ :=
  fftfreq chunk.length (1 / rate) (peakIdx chunk)

def frombufferMsg : String := "ValueError: buffer size must be a multiple of element size"

def argmaxMsg : String := "ValueError: attempt to get argmax of an empty sequence"

/-- The left-channel analysis chunk `left[start:end]`. -/
def chunkL (data : List ℕ) : List ℤ :=
  sliceList (evens (decodeBE16 data)) (windowStart (evens (decodeBE16 data)).length)
    (windowEndCode (evens (decodeBE16 data)).length)

/-- The right-channel analysis chunk `right[start:end]` (window computed from
the length of the left column, as in the code). -/
def chunkR (data : List ℕ) : List ℤ :=
  sliceList (odds (decodeBE16 data)) (windowStart (evens (decodeBE16 data)).length)
    (windowEndCode (evens (decodeBE16 data)).length)

/-- Decoded integer samples viewed as real signal values. -/
noncomputable def intsToReals (l : List ℤ) : List ℝ := l.map fun z => (z : ℝ)

open Classical in
/-- Model of `analyze_stereo(filename, sample_rate)` on the bytes of an existing file:
`Except.error` marks the uncaught `ValueError`s (odd byte count in
`np.frombuffer`; `np.argmax` on an empty slice); caught failures
(mis-paired samples, empty capture) return `False` as the code does. -/
noncomputable def analyze_stereo_data (data : List ℕ) (rate : ℝ) : Except String Bool :=
  if data.length % 2 ≠ 0 then Except.error frombufferMsg
  else if (decodeBE16 data).length % 2 ≠ 0 then Except.ok false
  else if (evens (decodeBE16 data)).length = 0 then Except.ok false
  else if (chunkL data).length / 2 = 0 then Except.error argmaxMsg
  else if (chunkR data).length / 2 = 0 then Except.error argmaxMsg
  else
    Except.ok
      ((if |get_peak_freq (intsToReals (chunkL data)) rate - 440| < 5 then true else false)
        && (if |get_peak_freq (intsToReals (chunkR data)) rate - 880| < 5 then true else false))

/-- Model of `analyze_stereo` itself: a missing source file is caught and returns
`False`. -/
noncomputable def analyze_stereo (fs : Option (List ℕ)) (rate : ℝ) : Except String Bool :=
  match fs with
  | none => Except.ok false
  | some data => analyze_stereo_data data rate

/-- The process exit status of `python analyze_stereo.py`: 0 on a passing
analysis, 1 on a failing one, and 1 when the interpreter dies on an uncaught
exception. -/
noncomputable def mainExit (fs : Option (List ℕ)) : ℕ :=
  match analyze_stereo fs 44100 with
  | Except.ok true => 0
  | Except.ok false => 1
  | Except.error _ => 1

/-- The left-channel peak frequency measured by the pipeline at the default
44100 Hz expected rate. -/
noncomputable def freqL (data : List ℕ) : ℝ :=
  get_peak_freq (intsToReals (chunkL data)) 44100

/-- The right-channel peak frequency measured by the pipeline. -/
noncomputable def freqR (data : List ℕ) : ℝ :=
  get_peak_freq (intsToReals (chunkR data)) 44100

/-! ### Concrete fixtures and end-to-end sink lemmas -/

def cxWorld0 : World := ⟨fun _ => none, 0⟩

def cxSink : FileAudioSink := ⟨"received_audio.raw", 2, 44100, 2, false, 0⟩

def recAudioWav : String := "received_audio.wav"

def closedSink : FileAudioSink := ⟨"c.raw", 2, 44100, 2, false, 5⟩

def failSink : FileAudioSink := ⟨"x.raw", 2, 44100, 2, true, 0⟩

def openTestSink : FileAudioSink := ⟨"t.raw", 2, 44100, 2, true, 0⟩

def aRawName : String := "a.raw"

def dotRawTwice : String := "ab.rawcd.rawe"

def dotWavTwice : String := "ab.wavcd.wave"

def pcmName : String := "cap.pcm"

def pcmSink : FileAudioSink := ⟨pcmName, 2, 44100, 2, true, 0⟩

def pcmWorld : World := ⟨setFile (fun _ => none) pcmName (some [1, 2, 3, 4]), 0⟩

theorem natLEBytes_length (w v : ℕ) : (natLEBytes w v).length = w := by
  induction w generalizing v with
  | zero => rfl
  | succ w ih => simp [natLEBytes, ih]

theorem readLE_natLEBytes (w v : ℕ) (h : v < 256 ^ w) :
    readLE (natLEBytes w v) = v := by
  induction w generalizing v with
  | zero =>
    have : v = 0 := by simpa using h
    simp [this, natLEBytes, readLE]
  | succ w ih =>
    have hdiv : v / 256 < 256 ^ w := by
      have : v < 256 ^ w * 256 := by
        calc v < 256 ^ (w + 1) := h
        _ = 256 ^ w * 256 := by ring
      exact Nat.div_lt_of_lt_mul (by omega)
    simp only [natLEBytes, readLE, ih _ hdiv]
    omega

theorem pyReplaceAux_of_not_contains (pat rep : List Char) :
    ∀ (l : List Char) (fuel : ℕ), containsSub l pat = false →
      pyReplaceAux pat rep fuel l = l := by
  intro l
  induction l with
  | nil => intro fuel _; cases fuel <;> rfl
  | cons c rest ih =>
    intro fuel h
    rw [containsSub, Bool.or_eq_false_iff] at h
    cases fuel with
    | zero => rfl
    | succ fuel => rw [pyReplaceAux, if_neg (by simp [h.1]), ih fuel h.2]

theorem pyReplace_of_not_contains (pat rep : List Char)
    (l : List Char) (h : containsSub l pat = false) : pyReplace pat rep l = l :=
  pyReplaceAux_of_not_contains pat rep l l.length h

theorem pyReplaceStr_of_not_contains (s pat rep : String)
    (h : containsSub s.toList pat.toList = false) :
    pyReplaceStr s pat rep = s := by
  unfold pyReplaceStr
  exact congrArg String.mk (pyReplace_of_not_contains _ _ _ h)

/-! ### Basic lemmas about the sink model -/

theorem setFile_get (f : String → Option (List ℕ)) (k : String) (v : Option (List ℕ)) :
    setFile f k v k = v := by
  simp [setFile]

theorem setFile_setFile (f : String → Option (List ℕ)) (k : String)
    (v v' : Option (List ℕ)) : setFile (setFile f k v) k v' = setFile f k v' := by
  funext n
  simp only [setFile]
  split <;> rfl

theorem write_closed (s : FileAudioSink) (w : World) (data : List ℕ)
    (h : s.fileOpen = false) : write s w data = (s, w, data.length) := by
  simp [write, h]

theorem writeWav_attempts (s : FileAudioSink) (w : World) :
    (writeWav s w).1.wavAttempts = w.wavAttempts + 1 := by
  simp only [writeWav]
  rcases w.files s.filename with _ | raw
  · rfl
  · by_cases h : s.sample_width * s.channels = 0 <;> simp [h]

theorem close_closed (s : FileAudioSink) (w : World) (h : s.fileOpen = false) :
    close s w = (s, w) := by
  simp [close, h]

theorem close_fileOpen (s : FileAudioSink) (w : World) :
    (close s w).1.fileOpen = false := by
  by_cases h : s.fileOpen = true
  · simp [close, h]
  · simp only [Bool.not_eq_true] at h
    simp [close, h]

theorem closeN_closed (k : ℕ) (s : FileAudioSink) (w : World)
    (h : s.fileOpen = false) : closeN k s w = (s, w) := by
  induction k with
  | zero => rfl
  | succ k ih => rw [closeN, close_closed s w h, ih]

theorem writeMany_open_spec :
    ∀ (datas : List (List ℕ)) (s : FileAudioSink) (w : World) (acc : List ℕ),
      s.fileOpen = true → w.files s.filename = some acc →
      (writeMany s w datas).1 =
          { s with bytes_written := s.bytes_written + (datas.map List.length).sum } ∧
        (writeMany s w datas).2.files = setFile w.files s.filename (some (acc ++ datas.flatten)) ∧
        (writeMany s w datas).2.wavAttempts = w.wavAttempts := by
  intro datas
  induction datas with
  | nil =>
    intro s w acc hs hacc
    refine ⟨?_, ?_, rfl⟩
    · simp [writeMany]
    · simp only [writeMany, List.flatten_nil, List.append_nil, ← hacc]
      funext n
      simp only [setFile]
      split
      · next heq => rw [heq]
      · rfl
  | cons d rest ih =>
    intro s w acc hs hacc
    have hw : write s w d =
        ({ s with bytes_written := s.bytes_written + d.length },
         { w with files := setFile w.files s.filename (some (acc ++ d)) },
         d.length) := by
      simp [write, hs, hacc]
    rw [writeMany, hw]
    dsimp only
    obtain ⟨h1, h2, h3⟩ := ih { s with bytes_written := s.bytes_written + d.length }
      { w with files := setFile w.files s.filename (some (acc ++ d)) }
      (acc ++ d) hs (by simp [setFile_get])
    refine ⟨?_, ?_, ?_⟩
    · rw [h1]
      simp only [List.map_cons, List.sum_cons]
      congr 1
      omega
    · rw [h2, setFile_setFile]
      simp only [List.flatten_cons, List.append_assoc]
    · rw [h3]

theorem writeMany_preserves :
    ∀ (datas : List (List ℕ)) (s : FileAudioSink) (w : World),
      (writeMany s w datas).1.fileOpen = s.fileOpen ∧
        (writeMany s w datas).1.filename = s.filename ∧
        (writeMany s w datas).2.wavAttempts = w.wavAttempts := by
  intro datas
  induction datas with
  | nil => intro s w; exact ⟨rfl, rfl, rfl⟩
  | cons d rest ih =>
    intro s w
    rw [writeMany]
    by_cases hs : s.fileOpen = true
    · have hw1 : (write s w d).1 = { s with bytes_written := s.bytes_written + d.length } := by
        simp [write, hs]
      have hw2 : (write s w d).2.1.wavAttempts = w.wavAttempts := by
        simp [write, hs]
      obtain ⟨p1, p2, p3⟩ := ih (write s w d).1 (write s w d).2.1
      refine ⟨?_, ?_, ?_⟩
      · rw [p1, hw1]
      · rw [p2, hw1]
      · rw [p3, hw2]
    · have hw : write s w d = (s, w, d.length) :=
        write_closed s w d (by simpa using hs)
      rw [hw]
      exact ih s w

theorem wavHeaderBytes_length (ch rate sw dsize : ℕ) :
    (wavHeaderBytes ch rate sw dsize).length = 44 := by
  simp [wavHeaderBytes, natLEBytes_length, riffTag, waveTag, fmtTag, dataTag]

/-- When every header field fits its `struct.pack` width, `_write_wav`
completes and the container is the 44-byte header followed by all raw bytes. -/
theorem wavFileBytes_ok (ch rate sw : ℕ) (raw : List ℕ)
    (h1 : 36 + dataSizeOf ch sw raw.length < 256 ^ 4)
    (h2 : rate < 256 ^ 4) (h3 : rate * ch * sw < 256 ^ 4)
    (h4 : ch < 256 ^ 2) (h5 : ch * sw < 256 ^ 2) (h6 : sw * 8 < 256 ^ 2) :
    wavFileBytes ch rate sw raw =
      (wavHeaderBytes ch rate sw (dataSizeOf ch sw raw.length) ++ raw, none) := by
  have h16 : (16 : ℕ) < 256 ^ 4 := by norm_num
  have h1r : (1 : ℕ) < 256 ^ 2 := by norm_num
  have hd : dataSizeOf ch sw raw.length < 256 ^ 4 := by omega
  simp only [wavFileBytes, wavWrites, packLE, if_pos h1, if_pos h2, if_pos h3,
    if_pos h4, if_pos h5, if_pos h6, if_pos h16, if_pos h1r, if_pos hd]
  simp only [runWrites]
  simp [wavHeaderBytes, List.append_assoc]

theorem extract_field {α : Type} (pre field rest : List α) (n m : ℕ)
    (hn : pre.length = n) (hm : field.length = m) :
    ((pre ++ (field ++ rest)).drop n).take m = field := by
  rw [List.drop_left' hn, List.take_left' hm]

/-- A successful `_write_wav` on a readable raw file, as one equation. -/
theorem writeWav_some (s : FileAudioSink) (w : World) (raw : List ℕ)
    (hraw : w.files s.filename = some raw) (hnz : s.sample_width * s.channels ≠ 0) :
    writeWav s w =
      ({ files := setFile w.files (pyReplaceStr s.filename rawExt wavExt)
            (some (wavFileBytes s.channels s.rate s.sample_width raw).1),
          wavAttempts := w.wavAttempts + 1 },
        (wavFileBytes s.channels s.rate s.sample_width raw).2) := by
  simp only [writeWav]
  rw [show ({ w with wavAttempts := w.wavAttempts + 1 } : World).files = w.files from rfl,
    hraw]
  simp [hnz]

theorem close_open (s : FileAudioSink) (w : World) (hs : s.fileOpen = true) :
    close s w = ({ s with fileOpen := false }, (writeWav s w).1) := by
  simp [close, hs]

/-! ### Lemmas about the verifier -/

theorem decodeBE16_length : ∀ l : List ℕ, (decodeBE16 l).length = l.length / 2
  | [] => rfl
  | [_] => by simp [decodeBE16]
  | _ :: _ :: rest => by
    simp only [decodeBE16, List.length_cons, decodeBE16_length rest]
    omega

theorem evens_length : ∀ l : List ℤ, (evens l).length = (l.length + 1) / 2
  | [] => rfl
  | [_] => by simp [evens]
  | _ :: _ :: rest => by
    simp only [evens, List.length_cons, evens_length rest]
    omega

theorem odds_length : ∀ l : List ℤ, (odds l).length = l.length / 2
  | [] => rfl
  | [_] => by simp [odds]
  | _ :: _ :: rest => by
    simp only [odds, List.length_cons, odds_length rest]
    omega

theorem sliceList_length (l : List ℤ) (s e : ℕ) :
    (sliceList l s e).length = min (e - s) (l.length - s) := by
  simp [sliceList]

theorem np_argmax_lt : ∀ l : List ℝ, l ≠ [] → np_argmax l < l.length
  | [] => by simp
  | x :: xs => fun _ => by
    simp only [np_argmax]
    split
    · simp
    · next h =>
      have hxs : xs ≠ [] := by
        rintro rfl
        exact h (by simp)
      have := np_argmax_lt xs hxs
      simp only [List.length_cons]
      omega

theorem np_argmax_le : ∀ (l : List ℝ) (j : ℕ), j < l.length →
    l.getD j 0 ≤ l.getD (np_argmax l) 0
  | [] => by simp
  | x :: xs => fun j hj => by
    simp only [np_argmax]
    split
    · next h =>
      cases j with
      | zero => simp
      | succ k =>
        have hk : k < xs.length := by simpa using hj
        have hmem : xs.getD k 0 ∈ xs := by
          rw [List.getD_eq_getElem xs 0 hk]
          exact List.getElem_mem hk
        simpa using h _ hmem
    · next h =>
      push_neg at h
      cases j with
      | zero =>
        obtain ⟨y, hy, hxy⟩ := h
        obtain ⟨i, hi, hieq⟩ := List.getElem_of_mem hy
        have hle := np_argmax_le xs i hi
        rw [List.getD_eq_getElem xs 0 hi, hieq] at hle
        simpa using le_of_lt (lt_of_lt_of_le hxy hle)
      | succ k =>
        have hk : k < xs.length := by simpa using hj
        simpa using np_argmax_le xs k hk

theorem np_argmax_head_lt (x : ℝ) (xs : List ℝ) (h : ¬ ∀ y ∈ xs, y ≤ x) :
    x < xs.getD (np_argmax xs) 0 := by
  push_neg at h
  obtain ⟨y, hy, hxy⟩ := h
  obtain ⟨i, hi, hieq⟩ := List.getElem_of_mem hy
  have hle := np_argmax_le xs i hi
  rw [List.getD_eq_getElem xs 0 hi, hieq] at hle
  exact lt_of_lt_of_le hxy hle

theorem np_argmax_first : ∀ (l : List ℝ) (j : ℕ), j < np_argmax l →
    l.getD j 0 < l.getD (np_argmax l) 0
  | [] => by simp [np_argmax]
  | x :: xs => fun j hj => by
    simp only [np_argmax] at hj ⊢
    by_cases h : ∀ y ∈ xs, y ≤ x
    · rw [if_pos h] at hj
      omega
    · rw [if_neg h] at hj ⊢
      cases j with
      | zero => simpa using np_argmax_head_lt x xs h
      | succ k =>
        have hk : k < np_argmax xs := by omega
        simpa using np_argmax_first xs k hk

theorem getD_range_map (f : ℕ → ℝ) (m j : ℕ) (hj : j < m) :
    ((List.range m).map f).getD j 0 = f j := by
  rw [List.getD_eq_getElem _ 0 (by simpa using hj)]
  simp

theorem mags_take (x : List ℝ) :
    (mags x).take (x.length / 2) = (List.range (x.length / 2)).map (magAt x) := by
  rw [mags, ← List.map_take, List.take_range]
  congr 2
  omega

/-- C8: for a chunk of length at least 2 and a positive sample rate,
`get_peak_freq` searches exactly the bins `0 ≤ k < floor(n/2)`, picks the
first bin of maximum magnitude (so the DC bin 0 can win, with no
special-casing), and reports the frequency `binIndex * sampleRate / n`. -/
theorem C8_peak_selection (chunk : List ℝ) (rate : ℝ)
    (hlen : 2 ≤ chunk.length) (hrate : 0 < rate) :
    peakIdx chunk < chunk.length / 2 ∧
    get_peak_freq chunk rate = (peakIdx chunk : ℝ) * rate / (chunk.length : ℝ) ∧
    (∀ j < chunk.length / 2, magAt chunk j ≤ magAt chunk (peakIdx chunk)) ∧
    (∀ j < peakIdx chunk, magAt chunk j < magAt chunk (peakIdx chunk)) := by
  have hhalf : 0 < chunk.length / 2 := by omega
  have hKdef : peakIdx chunk =
      np_argmax ((List.range (chunk.length / 2)).map (magAt chunk)) := by
    rw [peakIdx, mags_take]
  have hne : ((List.range (chunk.length / 2)).map (magAt chunk)) ≠ [] := by
    simp only [ne_eq, List.map_eq_nil_iff, List.range_eq_nil]
    omega
  have hk : peakIdx chunk < chunk.length / 2 := by
    have h := np_argmax_lt _ hne
    rw [← hKdef] at h
    simpa using h
  refine ⟨hk, ?_, ?_, ?_⟩
  · rw [get_peak_freq, fftfreq, if_pos (by omega : peakIdx chunk < (chunk.length + 1) / 2)]
    have hn : (chunk.length : ℝ) ≠ 0 := Nat.cast_ne_zero.mpr (by omega)
    have hr : rate ≠ 0 := ne_of_gt hrate
    rw [one_div]
    field_simp
  · intro j hj
    have h1 := np_argmax_le ((List.range (chunk.length / 2)).map (magAt chunk)) j
      (by simpa using hj)
    rw [getD_range_map _ _ _ hj, ← hKdef, getD_range_map _ _ _ hk] at h1
    exact h1
  · intro j hj
    have h1 := np_argmax_first ((List.range (chunk.length / 2)).map (magAt chunk)) j
      (hKdef ▸ hj)
    rw [getD_range_map _ _ _ (lt_trans hj hk), ← hKdef, getD_range_map _ _ _ hk] at h1
    exact h1

/-- Witness for C8 at the concrete chunk `[1, 0, 0, 0]` and rate 1. -/
theorem C8_peak_selection_witness :
    2 ≤ ([(1 : ℝ), 0, 0, 0] : List ℝ).length ∧ (0 : ℝ) < 1 ∧
      (peakIdx [(1 : ℝ), 0, 0, 0] < ([(1 : ℝ), 0, 0, 0] : List ℝ).length / 2 ∧
        get_peak_freq [(1 : ℝ), 0, 0, 0] 1 =
          (peakIdx [(1 : ℝ), 0, 0, 0] : ℝ) * 1 / (([(1 : ℝ), 0, 0, 0] : List ℝ).length : ℝ) ∧
        (∀ j < ([(1 : ℝ), 0, 0, 0] : List ℝ).length / 2,
          magAt [(1 : ℝ), 0, 0, 0] j ≤ magAt [(1 : ℝ), 0, 0, 0] (peakIdx [(1 : ℝ), 0, 0, 0])) ∧
        (∀ j < peakIdx [(1 : ℝ), 0, 0, 0],
          magAt [(1 : ℝ), 0, 0, 0] j < magAt [(1 : ℝ), 0, 0, 0] (peakIdx [(1 : ℝ), 0, 0, 0]))) :=
  ⟨by simp, one_pos, C8_peak_selection [(1 : ℝ), 0, 0, 0] 1 (by simp) one_pos⟩

theorem boolFlag_eq_true (P : Prop) [Decidable P] :
    ((if P then true else false) = true) ↔ P := by
  by_cases h : P <;> simp [h]

theorem analyze_frombuffer_error (data : List ℕ) (rate : ℝ)
    (h : data.length % 2 = 1) :
    analyze_stereo_data data rate = Except.error frombufferMsg := by
  rw [analyze_stereo_data, if_pos (by omega)]

theorem analyze_misaligned (data : List ℕ) (rate : ℝ) (h : data.length % 4 = 2) :
    analyze_stereo_data data rate = Except.ok false := by
  have hA := decodeBE16_length data
  rw [analyze_stereo_data, if_neg (by omega), if_pos (by omega)]

theorem analyze_ok_iff (data : List ℕ) :
    analyze_stereo_data data 44100 = Except.ok true ↔
      (data.length % 4 = 0 ∧ 8 ≤ data.length ∧
        |freqL data - 440| < 5 ∧ |freqR data - 880| < 5) := by
  have hA : (decodeBE16 data).length = data.length / 2 := decodeBE16_length data
  have hE : (evens (decodeBE16 data)).length = ((decodeBE16 data).length + 1) / 2 :=
    evens_length _
  have hO : (odds (decodeBE16 data)).length = (decodeBE16 data).length / 2 :=
    odds_length _
  have hCL : (chunkL data).length =
      min (windowEndCode (evens (decodeBE16 data)).length -
            windowStart (evens (decodeBE16 data)).length)
        ((evens (decodeBE16 data)).length - windowStart (evens (decodeBE16 data)).length) :=
    sliceList_length _ _ _
  have hCR : (chunkR data).length =
      min (windowEndCode (evens (decodeBE16 data)).length -
            windowStart (evens (decodeBE16 data)).length)
        ((odds (decodeBE16 data)).length - windowStart (evens (decodeBE16 data)).length) :=
    sliceList_length _ _ _
  have hws : windowStart (evens (decodeBE16 data)).length =
      (evens (decodeBE16 data)).length / 4 := rfl
  have hwe : windowEndCode (evens (decodeBE16 data)).length =
      min ((evens (decodeBE16 data)).length / 4 + 44100)
        (evens (decodeBE16 data)).length := rfl
  rw [analyze_stereo_data]
  by_cases h1 : data.length % 2 ≠ 0
  · rw [if_pos h1]
    exact iff_of_false (by simp) (fun hc => by have := hc.1; omega)
  · rw [if_neg h1]
    by_cases h2 : (decodeBE16 data).length % 2 ≠ 0
    · rw [if_pos h2]
      exact iff_of_false (by simp) (fun hc => by have := hc.1; omega)
    · rw [if_neg h2]
      by_cases h3 : (evens (decodeBE16 data)).length = 0
      · rw [if_pos h3]
        exact iff_of_false (by simp) (fun hc => by
          have hc1 := hc.1
          have hc2 := hc.2.1
          omega)
      · rw [if_neg h3]
        by_cases h4 : (chunkL data).length / 2 = 0
        · rw [if_pos h4]
          exact iff_of_false (by simp) (fun hc => by
            have hc1 := hc.1
            have hc2 := hc.2.1
            omega)
        · rw [if_neg h4]
          by_cases h5 : (chunkR data).length / 2 = 0
          · rw [if_pos h5]
            exact iff_of_false (by simp) (fun hc => by
              have hc1 := hc.1
              have hc2 := hc.2.1
              omega)
          · rw [if_neg h5]
            have hstruct : data.length % 4 = 0 ∧ 8 ≤ data.length := by
              constructor <;> omega
            simp only [Except.ok.injEq, Bool.and_eq_true, boolFlag_eq_true,
              freqL, freqR]
            constructor
            · rintro ⟨p, q⟩
              exact ⟨hstruct.1, hstruct.2, p, q⟩
            · rintro ⟨-, -, p, q⟩
              exact ⟨p, q⟩

theorem mainExit_eq_zero_iff (data : List ℕ) :
    mainExit (some data) = 0 ↔ analyze_stereo_data data 44100 = Except.ok true := by
  cases h : analyze_stereo_data data 44100 with
  | error e => simp [mainExit, analyze_stereo, h]
  | ok b => cases b <;> simp [mainExit, analyze_stereo, h]

/-- C4: the verifier process exits 0 exactly when the input decodes cleanly
(byte count a multiple of 4, at least two stereo frames) and both measured
peak frequencies are within 5 Hz of 440 Hz (left) and 880 Hz (right); every
other case exits 1, including a missing source, an empty capture and a
sample count not divisible by 2. -/
theorem C4_exit_status :
    (∀ fs : Option (List ℕ), mainExit fs = 0 ∨ mainExit fs = 1) ∧
    mainExit none = 1 ∧
    mainExit (some []) = 1 ∧
    (∀ data : List ℕ, data.length % 4 = 2 → mainExit (some data) = 1) ∧
    (∀ data : List ℕ, mainExit (some data) = 0 ↔
      (data.length % 4 = 0 ∧ 8 ≤ data.length ∧
        |freqL data - 440| < 5 ∧ |freqR data - 880| < 5)) := by
  have hzero_one : ∀ fs : Option (List ℕ), mainExit fs = 0 ∨ mainExit fs = 1 := by
    intro fs
    cases h : analyze_stereo fs 44100 with
    | error e => right; simp [mainExit, h]
    | ok b =>
      cases b
      · right
        simp [mainExit, h]
      · left
        simp [mainExit, h]
  refine ⟨hzero_one, rfl, rfl, ?_, ?_⟩
  · intro data h
    have hm := analyze_misaligned data 44100 h
    simp [mainExit, analyze_stereo, hm]
  · intro data
    rw [mainExit_eq_zero_iff, analyze_ok_iff]

/-- Witness for C4: the nonexistent-source and empty-source cases both exit 1,
read off the theorem itself. -/
theorem C4_exit_status_witness : mainExit none = 1 ∧ mainExit (some []) = 1 :=
  ⟨C4_exit_status.2.1, C4_exit_status.2.2.1⟩

/-- C3: the code computes the window end with a hard-coded 44100 (so it equals
the specified `min(start + expectedSampleRate, totalFrames)` only at the default
rate); e.g. at `sample_rate = 100` with 200 frames the code windows to frame
200 where one second of samples would end at frame 150. -/
theorem C3_window_hardcoded :
    (∀ n : ℕ, windowEndCode n = specWindowEnd 44100 n) ∧
    windowEndCode 200 = 200 ∧
    specWindowEnd 100 200 = 150 ∧
    windowEndCode 200 ≠ specWindowEnd 100 200 :=
  ⟨fun _ => rfl, by decide, by decide, by decide⟩

/-- C10: a source whose byte length is odd dies with the uncaught
`ValueError` from `np.frombuffer` (byte-to-sample conversion is outside the
error handling), while an even byte count with an odd sample count is the
only misalignment that is caught and reported as a normal failure. -/
theorem C10_frombuffer_uncaught (data : List ℕ) (rate : ℝ) :
    (data.length % 2 = 1 →
      analyze_stereo (some data) rate = Except.error frombufferMsg) ∧
    (data.length % 4 = 2 →
      analyze_stereo (some data) rate = Except.ok false) :=
  ⟨fun h => analyze_frombuffer_error data rate h,
   fun h => analyze_misaligned data rate h⟩

/-- Witness for C10 at the one-byte and two-byte sources. -/
theorem C10_frombuffer_uncaught_witness :
    analyze_stereo (some [0]) 44100 = Except.error frombufferMsg ∧
    analyze_stereo (some [0, 0]) 44100 = Except.ok false :=
  ⟨(C10_frombuffer_uncaught [0] 44100).1 (by decide),
   (C10_frombuffer_uncaught [0, 0] 44100).2 (by decide)⟩

/-- Closing an open sink after a run of writes: the destination holds the
joined buffers, and the sibling file receives the `_write_wav` byte stream. -/
theorem session_close_spec (s : FileAudioSink) (w : World) (datas : List (List ℕ))
    (hs : s.fileOpen = true) (hw : w.files s.filename = some [])
    (hnz : s.sample_width * s.channels ≠ 0) :
    (close (writeMany s w datas).1 (writeMany s w datas).2).2.files
        (pyReplaceStr s.filename rawExt wavExt) =
      some (wavFileBytes s.channels s.rate s.sample_width datas.flatten).1 ∧
    (close (writeMany s w datas).1 (writeMany s w datas).2).1.bytes_written =
      s.bytes_written + (datas.map List.length).sum := by
  obtain ⟨hm1, hm2, hm3⟩ := writeMany_open_spec datas s w [] hs hw
  have hs2open : (writeMany s w datas).1.fileOpen = true := by rw [hm1]; exact hs
  have hfn : (writeMany s w datas).1.filename = s.filename := by rw [hm1]
  have hchs : (writeMany s w datas).1.channels = s.channels := by rw [hm1]
  have hrt : (writeMany s w datas).1.rate = s.rate := by rw [hm1]
  have hswd : (writeMany s w datas).1.sample_width = s.sample_width := by rw [hm1]
  have hbw : (writeMany s w datas).1.bytes_written =
      s.bytes_written + (datas.map List.length).sum := by rw [hm1]
  have hraw : (writeMany s w datas).2.files (writeMany s w datas).1.filename =
      some datas.flatten := by
    rw [hm2, hfn, setFile_get, List.nil_append]
  have hclose := close_open (writeMany s w datas).1 (writeMany s w datas).2 hs2open
  have hww := writeWav_some (writeMany s w datas).1 (writeMany s w datas).2
    datas.flatten hraw (by rw [hswd, hchs]; exact hnz)
  constructor
  · rw [hclose]
    dsimp only
    rw [hww]
    dsimp only
    rw [hfn, hchs, hrt, hswd, setFile_get]
  · rw [hclose]
    dsimp only
    rw [hbw]

/-- C5: with every field in `struct.pack` range, the synthesized header has
the RIFF layout: ChunkSize = 36 + dataSize at offset 4, NumChannels at 22,
SampleRate at 24, ByteRate = rate*ch*width at 28, BlockAlign = ch*width at
32, BitsPerSample = width*8 at 34 and Subchunk2Size = dataSize at 40, all
little-endian, with dataSize the accumulated byte count rounded down to a
whole number of frames. -/
theorem C5_header_fields (ch rate sw : ℕ) (raw : List ℕ)
    (hch : 1 ≤ ch) (hsw : 1 ≤ sw) (hrate : 1 ≤ rate)
    (h1 : 36 + dataSizeOf ch sw raw.length < 256 ^ 4)
    (h2 : rate < 256 ^ 4) (h3 : rate * ch * sw < 256 ^ 4)
    (h4 : ch < 256 ^ 2) (h5 : ch * sw < 256 ^ 2) (h6 : sw * 8 < 256 ^ 2) :
    (wavFileBytes ch rate sw raw).2 = none ∧
    (wavFileBytes ch rate sw raw).1.length = 44 + raw.length ∧
    readLE (((wavFileBytes ch rate sw raw).1.drop 4).take 4) =
      36 + dataSizeOf ch sw raw.length ∧
    readLE (((wavFileBytes ch rate sw raw).1.drop 22).take 2) = ch ∧
    readLE (((wavFileBytes ch rate sw raw).1.drop 24).take 4) = rate ∧
    readLE (((wavFileBytes ch rate sw raw).1.drop 28).take 4) = rate * ch * sw ∧
    readLE (((wavFileBytes ch rate sw raw).1.drop 32).take 2) = ch * sw ∧
    readLE (((wavFileBytes ch rate sw raw).1.drop 34).take 2) = sw * 8 ∧
    readLE (((wavFileBytes ch rate sw raw).1.drop 40).take 4) =
      dataSizeOf ch sw raw.length ∧
    dataSizeOf ch sw raw.length = raw.length / (ch * sw) * ch * sw := by
  have hd : dataSizeOf ch sw raw.length < 256 ^ 4 := by omega
  rw [wavFileBytes_ok ch rate sw raw h1 h2 h3 h4 h5 h6]
  dsimp only
  refine ⟨rfl, ?_, ?_, ?_, ?_, ?_, ?_, ?_, ?_, ?_⟩
  · rw [List.length_append, wavHeaderBytes_length]
  · rw [show wavHeaderBytes ch rate sw (dataSizeOf ch sw raw.length) ++ raw =
        riffTag ++ (natLEBytes 4 (36 + dataSizeOf ch sw raw.length) ++
          (waveTag ++ fmtTag ++ natLEBytes 4 16 ++ natLEBytes 2 1 ++
            natLEBytes 2 ch ++ natLEBytes 4 rate ++
            natLEBytes 4 (rate * ch * sw) ++ natLEBytes 2 (ch * sw) ++
            natLEBytes 2 (sw * 8) ++ dataTag ++ natLEBytes 4 (dataSizeOf ch sw raw.length) ++ raw))
      from by simp [wavHeaderBytes, List.append_assoc]]
    rw [extract_field _ _ _ 4 4 (by simp [riffTag]) (natLEBytes_length _ _),
      readLE_natLEBytes _ _ h1]
  · rw [show wavHeaderBytes ch rate sw (dataSizeOf ch sw raw.length) ++ raw =
        (riffTag ++ natLEBytes 4 (36 + dataSizeOf ch sw raw.length) ++ waveTag ++
          fmtTag ++ natLEBytes 4 16 ++ natLEBytes 2 1) ++
          (natLEBytes 2 ch ++
            (natLEBytes 4 rate ++ natLEBytes 4 (rate * ch * sw) ++
              natLEBytes 2 (ch * sw) ++ natLEBytes 2 (sw * 8) ++ dataTag ++
              natLEBytes 4 (dataSizeOf ch sw raw.length) ++ raw))
      from by simp [wavHeaderBytes, List.append_assoc]]
    rw [extract_field _ _ _ 22 2
      (by simp [riffTag, waveTag, fmtTag, natLEBytes_length]) (natLEBytes_length _ _),
      readLE_natLEBytes _ _ h4]
  · rw [show wavHeaderBytes ch rate sw (dataSizeOf ch sw raw.length) ++ raw =
        (riffTag ++ natLEBytes 4 (36 + dataSizeOf ch sw raw.length) ++ waveTag ++
          fmtTag ++ natLEBytes 4 16 ++ natLEBytes 2 1 ++ natLEBytes 2 ch) ++
          (natLEBytes 4 rate ++
            (natLEBytes 4 (rate * ch * sw) ++ natLEBytes 2 (ch * sw) ++
              natLEBytes 2 (sw * 8) ++ dataTag ++
              natLEBytes 4 (dataSizeOf ch sw raw.length) ++ raw))
      from by simp [wavHeaderBytes, List.append_assoc]]
    rw [extract_field _ _ _ 24 4
      (by simp [riffTag, waveTag, fmtTag, natLEBytes_length]) (natLEBytes_length _ _),
      readLE_natLEBytes _ _ h2]
  · rw [show wavHeaderBytes ch rate sw (dataSizeOf ch sw raw.length) ++ raw =
        (riffTag ++ natLEBytes 4 (36 + dataSizeOf ch sw raw.length) ++ waveTag ++
          fmtTag ++ natLEBytes 4 16 ++ natLEBytes 2 1 ++ natLEBytes 2 ch ++
          natLEBytes 4 rate) ++
          (natLEBytes 4 (rate * ch * sw) ++
            (natLEBytes 2 (ch * sw) ++ natLEBytes 2 (sw * 8) ++ dataTag ++
              natLEBytes 4 (dataSizeOf ch sw raw.length) ++ raw))
      from by simp [wavHeaderBytes, List.append_assoc]]
    rw [extract_field _ _ _ 28 4
      (by simp [riffTag, waveTag, fmtTag, natLEBytes_length]) (natLEBytes_length _ _),
      readLE_natLEBytes _ _ h3]
  · rw [show wavHeaderBytes ch rate sw (dataSizeOf ch sw raw.length) ++ raw =
        (riffTag ++ natLEBytes 4 (36 + dataSizeOf ch sw raw.length) ++ waveTag ++
          fmtTag ++ natLEBytes 4 16 ++ natLEBytes 2 1 ++ natLEBytes 2 ch ++
          natLEBytes 4 rate ++ natLEBytes 4 (rate * ch * sw)) ++
          (natLEBytes 2 (ch * sw) ++
            (natLEBytes 2 (sw * 8) ++ dataTag ++
              natLEBytes 4 (dataSizeOf ch sw raw.length) ++ raw))
      from by simp [wavHeaderBytes, List.append_assoc]]
    rw [extract_field _ _ _ 32 2
      (by simp [riffTag, waveTag, fmtTag, natLEBytes_length]) (natLEBytes_length _ _),
      readLE_natLEBytes _ _ h5]
  · rw [show wavHeaderBytes ch rate sw (dataSizeOf ch sw raw.length) ++ raw =
        (riffTag ++ natLEBytes 4 (36 + dataSizeOf ch sw raw.length) ++ waveTag ++
          fmtTag ++ natLEBytes 4 16 ++ natLEBytes 2 1 ++ natLEBytes 2 ch ++
          natLEBytes 4 rate ++ natLEBytes 4 (rate * ch * sw) ++
          natLEBytes 2 (ch * sw)) ++
          (natLEBytes 2 (sw * 8) ++
            (dataTag ++ natLEBytes 4 (dataSizeOf ch sw raw.length) ++ raw))
      from by simp [wavHeaderBytes, List.append_assoc]]
    rw [extract_field _ _ _ 34 2
      (by simp [riffTag, waveTag, fmtTag, natLEBytes_length]) (natLEBytes_length _ _),
      readLE_natLEBytes _ _ h6]
  · rw [show wavHeaderBytes ch rate sw (dataSizeOf ch sw raw.length) ++ raw =
        (riffTag ++ natLEBytes 4 (36 + dataSizeOf ch sw raw.length) ++ waveTag ++
          fmtTag ++ natLEBytes 4 16 ++ natLEBytes 2 1 ++ natLEBytes 2 ch ++
          natLEBytes 4 rate ++ natLEBytes 4 (rate * ch * sw) ++
          natLEBytes 2 (ch * sw) ++ natLEBytes 2 (sw * 8) ++ dataTag) ++
          (natLEBytes 4 (dataSizeOf ch sw raw.length) ++ raw)
      from by simp [wavHeaderBytes, List.append_assoc]]
    rw [extract_field _ _ _ 40 4
      (by simp [riffTag, waveTag, fmtTag, dataTag, natLEBytes_length]) (natLEBytes_length _ _),
      readLE_natLEBytes _ _ hd]
  · rw [dataSizeOf, Nat.mul_comm sw ch]

/-- Witness for C5 at the default parameters and a five-byte capture. -/
theorem C5_header_fields_witness :
    readLE (((wavFileBytes 2 44100 2 [9, 9, 9, 9, 9]).1.drop 40).take 4) =
      dataSizeOf 2 2 ([9, 9, 9, 9, 9] : List ℕ).length :=
  (C5_header_fields 2 44100 2 [9, 9, 9, 9, 9] (by decide) (by decide) (by decide)
    (by decide) (by decide) (by decide) (by decide) (by decide)
    (by decide)).2.2.2.2.2.2.2.2.1

/-- C1 counterexample: with the default session (2 channels, 2-byte width),
writing the 5-byte buffer `[1,2,3,4,5]` and closing yields a container whose
bytes after the 44-byte header are all 5 written bytes, not the 4-byte
whole-frame truncation the claim requires. -/
theorem C1_truncation_cx :
    (((runSession cxSink cxWorld0 [[1, 2, 3, 4, 5]]).2.files recAudioWav).getD []).drop 44 =
      [1, 2, 3, 4, 5] ∧
    ((((runSession cxSink cxWorld0 [[1, 2, 3, 4, 5]]).2.files recAudioWav).getD []).drop 44).length ≠
      5 - 5 % (2 * 2) := by
  decide

/-- C1 amended: the payload after the 44-byte header is the concatenation of
all written buffers in order, with nothing dropped, reordered, duplicated or
corrupted — including any trailing incomplete frame; only the declared data-size
field (see C5) is truncated to the whole-frame boundary. -/
theorem C1_payload_full_concat (name : String) (ch rate sw bw : ℕ) (w0 : World)
    (datas : List (List ℕ)) (hch : 1 ≤ ch) (hsw : 1 ≤ sw)
    (h1 : 36 + dataSizeOf ch sw datas.flatten.length < 256 ^ 4)
    (h2 : rate < 256 ^ 4) (h3 : rate * ch * sw < 256 ^ 4)
    (h4 : ch < 256 ^ 2) (h5 : ch * sw < 256 ^ 2) (h6 : sw * 8 < 256 ^ 2) :
    (runSession ⟨name, ch, rate, sw, false, bw⟩ w0 datas).2.files
        (pyReplaceStr name rawExt wavExt) =
      some (wavHeaderBytes ch rate sw (dataSizeOf ch sw datas.flatten.length) ++
        datas.flatten) ∧
    (wavHeaderBytes ch rate sw (dataSizeOf ch sw datas.flatten.length) ++
        datas.flatten).drop 44 = datas.flatten ∧
    (runSession ⟨name, ch, rate, sw, false, bw⟩ w0 datas).1.bytes_written =
      bw + (datas.map List.length).sum := by
  have hs : (openSink ⟨name, ch, rate, sw, false, bw⟩ w0).1.fileOpen = true := rfl
  have hw : (openSink ⟨name, ch, rate, sw, false, bw⟩ w0).2.files
      (openSink ⟨name, ch, rate, sw, false, bw⟩ w0).1.filename = some [] := by
    simp [openSink, setFile]
  have hnz : (openSink ⟨name, ch, rate, sw, false, bw⟩ w0).1.sample_width *
      (openSink ⟨name, ch, rate, sw, false, bw⟩ w0).1.channels ≠ 0 := by
    show sw * ch ≠ 0
    exact Nat.mul_ne_zero (by omega) (by omega)
  obtain ⟨hfiles, hbw2⟩ := session_close_spec _ _ datas hs hw hnz
  simp only [openSink] at hfiles hbw2
  rw [wavFileBytes_ok ch rate sw datas.flatten h1 h2 h3 h4 h5 h6] at hfiles
  refine ⟨?_, List.drop_left' (wavHeaderBytes_length ch rate sw _), ?_⟩
  · rw [runSession]
    simp only [openSink]
    exact hfiles
  · rw [runSession]
    simp only [openSink]
    exact hbw2

/-- Witness for C1 (amended) at a one-buffer session writing a whole frame. -/
theorem C1_payload_full_concat_witness :
    36 + dataSizeOf 2 2 ([[1, 2, 3, 4]] : List (List ℕ)).flatten.length < 256 ^ 4 ∧
    (runSession ⟨aRawName, 2, 44100, 2, false, 0⟩ cxWorld0 [[1, 2, 3, 4]]).2.files
        (pyReplaceStr aRawName rawExt wavExt) =
      some (wavHeaderBytes 2 44100 2
          (dataSizeOf 2 2 ([[1, 2, 3, 4]] : List (List ℕ)).flatten.length) ++
        ([[1, 2, 3, 4]] : List (List ℕ)).flatten) :=
  ⟨by decide,
   (C1_payload_full_concat aRawName 2 44100 2 0 cxWorld0 [[1, 2, 3, 4]]
     (by decide) (by decide) (by decide) (by decide) (by decide) (by decide)
     (by decide) (by decide)).1⟩

/-- C2 counterexample: `write` on a closed session returns the length of the
buffer (3 here), not the 0 the claim states. -/
theorem C2_returns_length_cx :
    (write closedSink cxWorld0 [7, 7, 7]).2.2 = 3 ∧
    (write closedSink cxWorld0 [7, 7, 7]).2.2 ≠ 0 := by
  decide

/-- C2 amended: a `write` on a closed session performs no storage access,
leaves the session state (including the cumulative byte count) unchanged and
does not raise — but it returns `len(data)`, not 0. -/
theorem C2_write_after_close (s : FileAudioSink) (w : World) (data : List ℕ)
    (h : s.fileOpen = false) : write s w data = (s, w, data.length) :=
  write_closed s w data h

/-- Witness for C2 (amended) on a concrete closed session. -/
theorem C2_write_after_close_witness :
    closedSink.fileOpen = false ∧
    write closedSink cxWorld0 [7, 7, 7] = (closedSink, cxWorld0, 3) :=
  ⟨rfl, C2_write_after_close closedSink cxWorld0 [7, 7, 7] rfl⟩

/-- C6: after a session of arbitrarily many writes, the first `close`
finalizes the container exactly once (the finalization counter rises by
exactly 1) and leaves the session closed; any number of further `close`
calls is a no-op returning the identical session and storage state, and
none of this raises. -/
theorem C6_close_idempotent (s : FileAudioSink) (w : World)
    (datas : List (List ℕ)) (k : ℕ) (hs : s.fileOpen = true) :
    closeN k (close (writeMany s w datas).1 (writeMany s w datas).2).1
        (close (writeMany s w datas).1 (writeMany s w datas).2).2 =
      close (writeMany s w datas).1 (writeMany s w datas).2 ∧
    (close (writeMany s w datas).1 (writeMany s w datas).2).1.fileOpen = false ∧
    (close (writeMany s w datas).1 (writeMany s w datas).2).2.wavAttempts =
      w.wavAttempts + 1 := by
  obtain ⟨p1, p2, p3⟩ := writeMany_preserves datas s w
  have hopen : (writeMany s w datas).1.fileOpen = true := by rw [p1, hs]
  refine ⟨?_, close_fileOpen _ _, ?_⟩
  · exact (closeN_closed k _ _ (close_fileOpen _ _)).trans rfl
  · rw [close_open _ _ hopen]
    dsimp only
    rw [writeWav_attempts, p3]

/-- Witness for C6: a concrete open session, one write, double close. -/
theorem C6_close_idempotent_witness :
    (close (writeMany openTestSink cxWorld0 ([[5]] : List (List ℕ))).1
        (writeMany openTestSink cxWorld0 [[5]]).2).2.wavAttempts =
      cxWorld0.wavAttempts + 1 :=
  (C6_close_idempotent openTestSink cxWorld0 [[5]] 2 rfl).2.2

/-- C7: when container synthesis fails (the second component of `writeWav`
carries a caught exception), `close` still returns normally — the error is
swallowed, the handle is released and the session is closed either way. -/
theorem C7_finalization_failure_swallowed (s : FileAudioSink) (w : World)
    (hs : s.fileOpen = true) (hfail : (writeWav s w).2 ≠ none) :
    close s w = ({ s with fileOpen := false }, (writeWav s w).1) ∧
    (close s w).1.fileOpen = false :=
  ⟨close_open s w hs, close_fileOpen s w⟩

/-- Witness for C7: closing a sink whose raw capture file is missing, so that
synthesis fails with `FileNotFoundError`. -/
theorem C7_finalization_failure_swallowed_witness :
    failSink.fileOpen = true ∧ (writeWav failSink cxWorld0).2 ≠ none ∧
    (close failSink cxWorld0).1.fileOpen = false :=
  ⟨rfl, by decide,
   (C7_finalization_failure_swallowed failSink cxWorld0 rfl (by decide)).2⟩

/-- C9: the sibling name substitutes every occurrence of ".raw" with ".wav"
(not only a trailing extension), and when the destination name has no ".raw"
occurrence at all the substitution is the identity, so finalization writes
the container over the raw capture file itself. -/
theorem C9_wav_name_replacement :
    (∀ name : String, containsSub name.toList rawExt.toList = false →
      pyReplaceStr name rawExt wavExt = name) ∧
    (∀ (s : FileAudioSink) (w : World) (raw : List ℕ),
      s.fileOpen = true →
      containsSub s.filename.toList rawExt.toList = false →
      w.files s.filename = some raw →
      s.sample_width * s.channels ≠ 0 →
      (close s w).2.files s.filename =
        some (wavFileBytes s.channels s.rate s.sample_width raw).1) ∧
    pyReplaceStr dotRawTwice rawExt wavExt = dotWavTwice := by
  refine ⟨fun name h => pyReplaceStr_of_not_contains name rawExt wavExt h, ?_, by decide⟩
  intro s w raw hs hnc hraw hnz
  rw [close_open s w hs]
  dsimp only
  rw [writeWav_some s w raw hraw hnz]
  dsimp only
  rw [pyReplaceStr_of_not_contains s.filename rawExt wavExt hnc, setFile_get]

/-- Witness for C9: a `.pcm` destination is overwritten by the container. -/
theorem C9_wav_name_replacement_witness :
    containsSub pcmName.toList rawExt.toList = false ∧
    (close pcmSink pcmWorld).2.files pcmName =
      some (wavFileBytes 2 44100 2 [1, 2, 3, 4]).1 :=
  ⟨by decide,
   C9_wav_name_replacement.2.1 pcmSink pcmWorld [1, 2, 3, 4] rfl (by decide)
     (by decide) (by decide)⟩
